import Mathlib

/-
Verification of the network-metrics aggregation layer of the
interstate-trade-viz dashboard (src/data_loader.py and
src/components/map.py), as a shallow embedding in Lean 4.

Conventions of the embedding:
* pandas DataFrames become Lean structures / lists of rows;
* real-valued scores and trade weights become ℚ (exact arithmetic in
  place of floating point);
* pandas `Series.rank(ascending=False, method='min')` becomes
  `rankMinDesc` (rank of x = 1 + number of strictly larger entries,
  which is exactly the documented min-method descending rank);
* Python dicts become insertion-ordered association lists with
  last-write-wins update (`dictGet`, `dictSet`);
* Python list slicing `xs[:n]` with a possibly negative `n` becomes
  `pySlice`;
* code that cannot raise is embedded as a total function; where a
  claim speaks about an error class that the spec introduces, the
  result is wrapped in `Except` with an error type that carries the
  spec's taxonomy, and the translation of the source shows which
  constructors are actually reachable.
-/

/-! ## Helper lemmas -/

/-- Embedding of pandas `Series.rank(ascending=False, method='min')`
(data_loader.py lines 42, 55-57, 267-269): each entry's rank is one plus
the number of strictly greater entries in the column.  Ranks are the
integers the dashboard displays (the source keeps floats / casts to int;
the values coincide). -/
def rankMinDesc (xs : List ℚ) : List Nat :=
  xs.map (fun x => 1 + (xs.filter (fun y => decide (x < y))).length)

/-- Embedding of Python list slicing `xs[:n]` for an arbitrary integer
`n`: a non-negative `n` keeps the first `n` elements, a negative `n`
keeps all but the last `|n|` elements (clamped at zero). -/
def pySlice (n : Int) (xs : List α) : List α :=
  if 0 ≤ n then xs.take n.toNat
  else xs.take (xs.length - (-n).toNat)

/-- Python `dict(zip(keys, values))` lookup: the last binding of a key
wins, a missing key gives `none` (`.get` semantics). -/
def dictGet [DecidableEq α] (pairs : List (α × β)) (k : α) : Option β :=
  (pairs.reverse.find? (fun p => decide (p.1 = k))).map Prod.snd

/-- Python `d[k] = v` on an insertion-ordered dict: an existing key keeps
its position and gets the new value, a new key is appended. -/
def dictSet [DecidableEq α] (d : List (α × β)) (k : α) (v : β) : List (α × β) :=
  if d.any (fun p => decide (p.1 = k)) then
    d.map (fun p => if p.1 = k then (k, v) else p)
  else d ++ [(k, v)]

deriving instance DecidableEq for Except

/-- Python string comparison (code-point lexicographic), used by
`sorted([a, b])` on a two-element list of state codes in map.py. -/
def charListLe (a b : List Char) : Bool :=
  match a, b with
  | [], _ => true
  | _ :: _, [] => false
  | x :: xs, y :: ys =>
    if x.toNat < y.toNat then true
    else if y.toNat < x.toNat then false
    else charListLe xs ys

/-- `tuple(sorted([a, b]))` from map.py line 91: the canonical unordered
key of a directed edge's two endpoint labels. -/
def pairKey (a b : String) : String × String :=
  if charListLe a.toList b.toList then (a, b) else (b, a)

/-- A directed edge of the trade network graph (`network.edges(data=True)`
in data_loader.py lines 173-176): integer endpoint node ids and a trade
weight. -/
structure Edge where
  source : Nat
  target : Nat
  weight : ℚ
deriving DecidableEq, Repr

/-- A row of state_coords.csv as used by the core: postal code, display
name, latitude, longitude. -/
structure CoordRow where
  state_abbr : String
  state_name : String
  lat : ℚ
  lon : ℚ
deriving DecidableEq, Repr

/-- Stable insertion of an edge into a weight-descending list: the new
edge goes in front of the first strictly lighter edge, so edges of equal
weight keep their relative order. -/
def insertWeightDesc (e : Edge) : List Edge → List Edge
  | [] => [e]
  | x :: xs => if x.weight < e.weight then e :: x :: xs else x :: insertWeightDesc e xs

/-- Embedding of `sorted(edges_with_weight, key=lambda x: x[2],
reverse=True)` (data_loader.py line 177): a stable descending sort by
weight, built by inserting the edges left to right. -/
def sortWeightDesc (es : List Edge) : List Edge :=
  es.foldl (fun acc e => insertWeightDesc e acc) []

/-- One record produced by `get_top_edges`: endpoint labels, weight and
both endpoints' coordinates (data_loader.py lines 189-197). -/
structure EdgeRecord where
  source : String
  target : String
  weight : ℚ
  source_lat : ℚ
  source_lon : ℚ
  target_lat : ℚ
  target_lon : ℚ
deriving DecidableEq, Repr

/-- Embedding of `get_top_edges(network, coords, centralities, top_n)`
(data_loader.py lines 166-199).  `centralities` stands for the
`state_id` / `state` columns zipped, exactly what the source turns into
`id_to_label`.  The source slices the weight-descending edge list to
`top_n` FIRST and only then drops edges with a missing or empty label or
a missing coordinate entry (`continue`), so the embedding filters after
`pySlice`. -/
def get_top_edges (network : List Edge) (coords : List CoordRow)
    (centralities : List (Nat × String)) (top_n : Int) : List EdgeRecord :=
  let coordPairs := coords.map (fun c => (c.state_abbr, (c.lat, c.lon)))
  (pySlice top_n (sortWeightDesc network)).filterMap fun e =>
    match dictGet centralities e.source, dictGet centralities e.target with
    | some sl, some tl =>
      if sl = "" || tl = "" then none
      else
        match dictGet coordPairs sl, dictGet coordPairs tl with
        | some sc, some tc => some ⟨sl, tl, e.weight, sc.1, sc.2, tc.1, tc.2⟩
        | _, _ => none
    | _, _ => none


/-- The per-pair accumulator of map.py lines 93-102: the coordinates of
the first contributing edge and the direction-keyed flow dict. -/
structure PairData where
  coords : ℚ × ℚ × ℚ × ℚ
  flows : List (String × ℚ)
deriving DecidableEq, Repr

/-- The direction key `f"{source}→{target}"` of map.py line 101. -/
def directionKey (e : EdgeRecord) : String :=
  e.source ++ "→" ++ e.target

/-- One iteration of the edge-grouping loop of map.py lines 89-102: a new
unordered pair key is appended with the edge's coordinates and a
one-entry flow dict; an existing key keeps its coordinates and gets the
edge's weight stored under its direction key. -/
def addEdgeToPairs (pairs : List ((String × String) × PairData)) (e : EdgeRecord) :
    List ((String × String) × PairData) :=
  match pairs.find? (fun p => decide (p.1 = pairKey e.source e.target)) with
  | some _ =>
      pairs.map fun p =>
        if p.1 = pairKey e.source e.target then
          (p.1, ⟨p.2.coords, dictSet p.2.flows (directionKey e) e.weight⟩)
        else p
  | none =>
      pairs ++ [(pairKey e.source e.target,
                 ⟨(e.source_lat, e.source_lon, e.target_lat, e.target_lon),
                  dictSet [] (directionKey e) e.weight⟩)]

/-- Embedding of the whole grouping loop of map.py lines 87-102: fold the
selected edge records into the insertion-ordered `edge_pairs` dict. -/
def buildEdgePairs (edge_data : List EdgeRecord) : List ((String × String) × PairData) :=
  edge_data.foldl addEdgeToPairs []

/-- `total_weight = sum(flows.values())` of map.py line 113. -/
def total_weight (pd : PairData) : ℚ :=
  (pd.flows.map Prod.snd).sum

/-- A row of state_gdp_2017.csv as read by `load_gdp`. -/
structure GdpRow where
  state_abbrev : String
  gdp_2017_q4_millions : ℚ
deriving DecidableEq, Repr

/-- The columns `load_gdp` adds and the core later consumes. -/
structure GdpOut where
  state_abbrev : String
  gdp_billions : ℚ
  gdp_rank : Nat
deriving DecidableEq, Repr

/-- Embedding of `load_gdp` (data_loader.py lines 37-43): derive
`gdp_billions = gdp_2017_q4_millions / 1000` and `gdp_rank` as the
descending min-method rank of `gdp_billions`. -/
def load_gdp (rows : List GdpRow) : List GdpOut :=
  let billions := rows.map (fun r => r.gdp_2017_q4_millions / 1000)
  (rows.zip (billions.zip (rankMinDesc billions))).map fun p =>
    ⟨p.1.state_abbrev, p.2.1, p.2.2⟩

/-- pandas `left.merge(right, left_on=key, right_on=rkey, how='left')`:
every left row is kept; a left row with no match in `ref` yields one
combined row with no right-hand payload, a left row with matches yields
one combined row per match, in order. -/
def leftMerge (df : List α) (ref : List β) (key : α → String) (rkey : β → String)
    (combine : α → Option β → γ) : List γ :=
  df.flatMap fun r =>
    match ref.filter (fun g => decide (rkey g = key r)) with
    | [] => [combine r none]
    | ms => ms.map fun g => combine r (some g)

/-- A row of centralities_51x51.csv / centralities_52x52.csv after the
`label → state` rename: scores and (pre-computed) ranks per measure. -/
structure CentRow where
  state_id : Nat
  state : String
  betweenness : ℚ
  eigenvector : ℚ
  out_degree : ℚ
  rank_betweenness : ℚ
  rank_eigenvector : ℚ
  rank_out_degree : ℚ
deriving DecidableEq, Repr

/-- A row of the joined centralities view produced by
`_prepare_centralities`: the centrality row plus optional GDP figures and
display name (undefined when the merge found no match, e.g. for the
aggregate international node). -/
structure PrepRow where
  state_id : Nat
  state : String
  betweenness : ℚ
  eigenvector : ℚ
  out_degree : ℚ
  rank_betweenness : ℚ
  rank_eigenvector : ℚ
  rank_out_degree : ℚ
  gdp_billions : Option ℚ
  gdp_rank : Option Nat
  state_name : Option String
deriving DecidableEq, Repr

/-- Embedding of `_prepare_centralities` (data_loader.py lines 220-232):
left-merge the GDP columns on `state = state_abbrev`, then left-merge the
coordinate table's `state_name` on `state = state_abbr`. -/
def _prepare_centralities (df : List CentRow) (gdp : List GdpOut)
    (coords : List CoordRow) : List PrepRow :=
  let step1 : List PrepRow :=
    leftMerge df gdp (fun r => r.state) (fun g => g.state_abbrev) fun r g =>
      ⟨r.state_id, r.state, r.betweenness, r.eigenvector, r.out_degree,
       r.rank_betweenness, r.rank_eigenvector, r.rank_out_degree,
       g.map (fun x => x.gdp_billions), g.map (fun x => x.gdp_rank), none⟩
  leftMerge step1 coords (fun r => r.state) (fun c => c.state_abbr) fun r c =>
    { r with state_name := c.map (fun x => x.state_name) }

/-- One row of the `rank_changes` table (data_loader.py lines 247-252):
a state code and, per measure, the signed rank delta, `none` standing for
the NaN pandas produces when the state has no row in the restricted
extended table. -/
structure RankChangeRow where
  state : String
  betweenness_change : Option ℚ
  eigenvector_change : Option ℚ
  out_degree_change : Option ℚ
deriving DecidableEq, Repr

/-- `states_51 = set(centralities_51x51['state'])` (data_loader.py line
244), kept as the column list; only membership is ever used. -/
def states_51 (c51 : List PrepRow) : List String :=
  c51.map (fun r => r.state)

/-- `centralities_52x52[centralities_52x52['state'].isin(states_51)]`
(data_loader.py line 245). -/
def c52_states_only (c51 c52 : List PrepRow) : List PrepRow :=
  c52.filter (fun r => decide (r.state ∈ states_51 c51))

/-- The aligned difference `(rank_51 - rank_52).reindex(...)` of
data_loader.py line 252 at one state of the domestic table: pandas
aligns the two state-indexed series, so the delta is defined exactly
when the state also occurs in the restricted extended table (unique
indices assumed, as `set_index('state')` requires for alignment). -/
def alignedDelta (r : PrepRow) (ext : List PrepRow) (m : PrepRow → ℚ) : Option ℚ :=
  match ext.find? (fun s => decide (s.state = r.state)) with
  | some s => some (m r - m s)
  | none => none

/-- Embedding of the `rank_changes` computation (data_loader.py lines
244-252): one row per domestic state, carrying per measure the delta
`rank_domestic - rank_extended` against the extended table restricted to
domestic states. -/
def rank_changes (c51 c52 : List PrepRow) : List RankChangeRow :=
  let ext := c52_states_only c51 c52
  c51.map fun r =>
    ⟨r.state,
     alignedDelta r ext (fun s => s.rank_betweenness),
     alignedDelta r ext (fun s => s.rank_eigenvector),
     alignedDelta r ext (fun s => s.rank_out_degree)⟩

/-- A row of commodity_centralities.csv after the `label → state`
rename. -/
structure ComRow where
  state_id : Nat
  state : String
  betweenness : ℚ
  eigenvector : ℚ
  out_degree : ℚ
  commodity_code : String
deriving DecidableEq, Repr

/-- A row of the prepared commodity view: the commodity row, its
segment-local ranks, and the optional GDP / name columns from the left
merges. -/
structure ComPrepRow where
  state_id : Nat
  state : String
  betweenness : ℚ
  eigenvector : ℚ
  out_degree : ℚ
  commodity_code : String
  rank_betweenness : Nat
  rank_eigenvector : Nat
  rank_out_degree : Nat
  gdp_billions : Option ℚ
  gdp_rank : Option Nat
  state_name : Option String
deriving DecidableEq, Repr

/-- The three segment-local rank columns of data_loader.py lines 267-269,
attached row by row: each rank is the min-method descending rank of the
row's score within the segment (see `rankMinDesc`). -/
def rankSegment (rows : List ComRow) : List (ComRow × Nat × Nat × Nat) :=
  rows.map fun r =>
    (r,
     1 + (rows.filter (fun s => decide (r.betweenness < s.betweenness))).length,
     1 + (rows.filter (fun s => decide (r.eigenvector < s.eigenvector))).length,
     1 + (rows.filter (fun s => decide (r.out_degree < s.out_degree))).length)

/-- `Series.unique()` order: first occurrences, left to right. -/
def firstUnique [DecidableEq α] : List α → List α
  | [] => []
  | x :: xs => x :: firstUnique (xs.filter (fun y => decide (y ≠ x)))
termination_by l => l.length
decreasing_by
  simp only [List.length_cons]
  exact Nat.lt_succ_of_le (List.length_filter_le _ _)

/-- The per-code body of `_prepare_commodity_centralities` (data_loader.py
lines 266-282): rank the segment's three measures in isolation, then
left-merge GDP and state names exactly as `_prepare_centralities` does. -/
def processSegment (rows : List ComRow) (gdp : List GdpOut)
    (coords : List CoordRow) : List ComPrepRow :=
  let step1 : List ComPrepRow :=
    leftMerge (rankSegment rows) gdp (fun p => p.1.state) (fun g => g.state_abbrev) fun p g =>
      ⟨p.1.state_id, p.1.state, p.1.betweenness, p.1.eigenvector, p.1.out_degree,
       p.1.commodity_code, p.2.1, p.2.2.1, p.2.2.2,
       g.map (fun x => x.gdp_billions), g.map (fun x => x.gdp_rank), none⟩
  leftMerge step1 coords (fun r => r.state) (fun c => c.state_abbr) fun r c =>
    { r with state_name := c.map (fun x => x.state_name) }

/-- Embedding of `_prepare_commodity_centralities` (data_loader.py lines
262-284): for each distinct commodity code in first-occurrence order,
process the code's rows in isolation and concatenate the results. -/
def _prepare_commodity_centralities (df : List ComRow) (gdp : List GdpOut)
    (coords : List CoordRow) : List ComPrepRow :=
  (firstUnique (df.map (fun r => r.commodity_code))).flatMap fun code =>
    processSegment (df.filter (fun r => decide (r.commodity_code = code))) gdp coords

/-- The spec's commodity-segment error taxonomy (spec sections 4.4 and
7).  The source itself defines no such class; the constructor exists so
that claims about it can be stated against the translation. -/
inductive SegmentErr where
  | emptySegment
deriving DecidableEq, Repr

/-- The two shapes `get_centralities_for_commodity` can return: the base
domestic view (for code "all") or a filtered commodity view. -/
inductive CentralView where
  | base (rows : List PrepRow)
  | segment (rows : List ComPrepRow)
deriving DecidableEq, Repr

/-- Embedding of `get_centralities_for_commodity` (data_loader.py lines
294-307).  The source has no raise statement on any path, so the
translation is total and every branch returns `Except.ok`; a commodity
code matching no row simply yields an empty filtered view. -/
def get_centralities_for_commodity (centralities_51x51 : List PrepRow)
    (commodity_centralities : List ComPrepRow) (commodity_code : String) :
    Except SegmentErr CentralView :=
  if commodity_code = "all" then .ok (.base centralities_51x51)
  else .ok (.segment (commodity_centralities.filter
    (fun r => decide (r.commodity_code = commodity_code))))

/-- The spec's missing-measure error taxonomy (spec sections 4.1 and 7):
`keyError` is what pandas raises on a missing column; `validationError`
is the class the spec names.  The translation of the source only ever
produces `keyError`. -/
inductive ColumnErr where
  | keyError (col : String)
  | validationError (col : String)
deriving DecidableEq, Repr

/-- A DataFrame restricted to its named numeric columns: an association
list from column name to column values. -/
abbrev ColTable := List (String × List ℚ)

/-- Column access `df[c]`: a missing column is pandas `KeyError(c)`. -/
def getColumn (tbl : ColTable) (c : String) : Except ColumnErr (List ℚ) :=
  match tbl.find? (fun p => decide (p.1 = c)) with
  | some p => .ok p.2
  | none => .error (.keyError c)

/-- The rank-annotation statements `df['rank_<m>'] = df[m].rank(
ascending=False, method='min')` executed for the measures in order: the
first missing measure column aborts with its `KeyError`, exactly where
the Python statement would raise. -/
def addRankColumns (tbl : ColTable) : List String → Except ColumnErr ColTable
  | [] => .ok tbl
  | m :: ms =>
    match getColumn tbl m with
    | .error e => .error e
    | .ok col =>
      addRankColumns (tbl ++ [("rank_" ++ m, (rankMinDesc col).map (fun n => (n : ℚ)))]) ms

/-- The fixed measure list the source ranks, in statement order
(data_loader.py lines 55-57 and 267-269). -/
def rankedMeasures : List String :=
  ["betweenness", "eigenvector", "out_degree"]

/-- The rank-annotation block of `load_filtration_data` (data_loader.py
lines 55-57) applied to one threshold's table. -/
def annotateRanks (tbl : ColTable) : Except ColumnErr ColTable :=
  addRankColumns tbl rankedMeasures

/-- The three-edge network of the C10 scenario: edge 1→2 is the heaviest
but node 2's label "B" has no coordinate row, so in Top-2 mode the
truncation keeps the two heaviest directed edges and the filter then
drops 1→2, leaving a single record even though two coordinate-complete
edges exist. -/
def c10Net : List Edge :=
  [⟨1, 2, 100⟩, ⟨1, 3, 50⟩, ⟨3, 1, 40⟩]

/-- Coordinates for the C10 scenario: only "A" and "C" have entries. -/
def c10Coords : List CoordRow :=
  [⟨"A", "Alpha", 1, 2⟩, ⟨"C", "Gamma", 5, 6⟩]

/-- Labels for the C10 scenario. -/
def c10Cents : List (Nat × String) :=
  [(1, "A"), (2, "B"), (3, "C")]

/-- A one-segment prepared commodity table used to exercise
`get_centralities_for_commodity` with a code that matches nothing. -/
def c7ComTable : List ComPrepRow :=
  [⟨1, "IA", 1, 2, 3, "01", 1, 1, 1, none, none, none⟩]

/-- A centrality table that lacks the "betweenness" column. -/
def c9Table : ColTable :=
  [("eigenvector", [1, 2]), ("out_degree", [3, 4])]

/-- The domestic table of the C2 scenario: state "IA" with
rank_eigenvector 31. -/
def c2Dom : List PrepRow :=
  [⟨19, "IA", 1, 2, 3, 10, 31, 5, some 200, some 30, some "Iowa"⟩]

/-- The extended table of the C2 scenario: "IA" with rank_eigenvector 18
plus the aggregate international row "ROW". -/
def c2Ext : List PrepRow :=
  [⟨19, "IA", 1, 2, 3, 12, 18, 5, some 200, some 30, some "Iowa"⟩,
   ⟨52, "ROW", 9, 9, 9, 1, 1, 1, none, none, none⟩]

/-- The domestic table of the C3 counterexample: states "IA" and "XX". -/
def c3Dom : List PrepRow :=
  [⟨19, "IA", 1, 2, 3, 10, 31, 5, none, none, none⟩,
   ⟨7, "XX", 4, 5, 6, 2, 2, 2, none, none, none⟩]

/-- The extended table of the C3 counterexample: only "IA". -/
def c3Ext : List PrepRow :=
  [⟨19, "IA", 1, 2, 3, 12, 18, 5, none, none, none⟩]

/-- A one-row centrality table whose state "ROW" (the aggregate
international node) has neither a GDP nor a coordinate entry. -/
def c4Df : List CentRow :=
  [⟨52, "ROW", 1, 2, 3, 4, 5, 6⟩]

/-- A GDP reference table without "ROW". -/
def c4Gdp : List GdpOut :=
  [⟨"IA", 200, 30⟩]

/-- A coordinate reference table without "ROW". -/
def c4Coords : List CoordRow :=
  [⟨"IA", "Iowa", 42, -93⟩]

/-- Commodity input A: segment "01" is Iowa, segment "02" is Texas. -/
def c6DfA : List ComRow :=
  [⟨19, "IA", 1, 2, 3, "01"⟩, ⟨48, "TX", 4, 5, 6, "02"⟩]

/-- Commodity input B: same segment "01", entirely different segment
"02". -/
def c6DfB : List ComRow :=
  [⟨19, "IA", 1, 2, 3, "01"⟩, ⟨6, "CA", 7, 8, 9, "02"⟩]

/-- The grand total of all flow values over all aggregated pairs. -/
def pairsFlowTotal (pairs : List ((String × String) × PairData)) : ℚ :=
  (pairs.map (fun p => total_weight p.2)).sum

/-- All direction keys stored across all aggregated pairs. -/
def flowDirs (pairs : List ((String × String) × PairData)) : List String :=
  pairs.flatMap (fun p => p.2.flows.map Prod.fst)

/-- The C5 scenario selection: directed edges A→B (10), B→A (4) and
C→D (100), all with complete coordinates. -/
def c5Sel : List EdgeRecord :=
  [⟨"A", "B", 10, 1, 2, 3, 4⟩, ⟨"B", "A", 4, 3, 4, 1, 2⟩, ⟨"C", "D", 100, 5, 6, 7, 8⟩]

/-- `decide`-wrapped filters count exactly the elements satisfying the
proposition. -/
theorem filter_lt_length_eq_countP (xs : List ℚ) (x : ℚ) :
    (xs.filter (fun y => decide (x < y))).length = xs.countP (fun y => decide (x < y)) :=
  (xs.countP_eq_length_filter _).symm

/-- Splitting the strictly-greater count at the next distinct value
below `x`: when nothing of `xs` lies strictly between `z` and `x`, the
entries above `z` are exactly the entries above `x` plus the entries
equal to `x`. -/
theorem countP_gt_split (xs : List ℚ) (x z : ℚ) (hzx : z < x)
    (hgap : ∀ y ∈ xs, ¬(z < y ∧ y < x)) :
    xs.countP (fun y => decide (z < y)) =
      xs.countP (fun y => decide (x < y)) + xs.countP (fun y => decide (y = x)) := by
  induction xs with
  | nil => simp
  | cons y ys ih =>
    have hy := hgap y (List.mem_cons_self y ys)
    have ihy := ih (fun a ha => hgap a (List.mem_cons_of_mem y ha))
    by_cases hzy : z < y
    · have hxy : x ≤ y := by
        by_contra hlt
        exact hy ⟨hzy, lt_of_not_le hlt⟩
      rcases lt_or_eq_of_le hxy with hlt | heq
      · simp [List.countP_cons, hzy, hlt, not_lt.mpr (le_of_lt hlt), ne_of_gt hlt, ihy]
        omega
      · subst heq
        simp [List.countP_cons, hzx, ihy]
        omega
    · have hyx : ¬ x < y := fun hlt => hzy (lt_trans hzx hlt)
      have hne : ¬ y = x := fun heq => hzy (heq ▸ hzx)
      simp [List.countP_cons, hzy, hyx, hne, ihy]

/-- C1: for every table of centrality or GDP scores, `rankMinDesc` (the
common rank-annotation rule of `load_gdp`, `load_filtration_data` and
`_prepare_commodity_centralities`) is descending competition ranking: a
maximal score gets rank 1, tied scores get the same (minimal) rank, the
rank right after a tie group jumps by the tie-group size, and the GDP
scores [50, 50, 30] are ranked [1, 1, 3] (also through `load_gdp` on the
raw millions column). -/
theorem c1_rank_annotation_competition_ranking :
    (∀ (xs : List ℚ) (p : ℚ × Nat), p ∈ xs.zip (rankMinDesc xs) →
       (∀ y ∈ xs, y ≤ p.1) → p.2 = 1)
    ∧ (∀ (xs : List ℚ) (p q : ℚ × Nat), p ∈ xs.zip (rankMinDesc xs) →
       q ∈ xs.zip (rankMinDesc xs) → p.1 = q.1 → p.2 = q.2)
    ∧ (∀ (xs : List ℚ) (p q : ℚ × Nat), p ∈ xs.zip (rankMinDesc xs) →
       q ∈ xs.zip (rankMinDesc xs) → q.1 < p.1 →
       (∀ y ∈ xs, ¬(q.1 < y ∧ y < p.1)) →
       q.2 = p.2 + xs.countP (fun y => decide (y = p.1)))
    ∧ rankMinDesc [50, 50, 30] = [1, 1, 3]
    ∧ (load_gdp [⟨"CA", 50000⟩, ⟨"TX", 50000⟩, ⟨"IA", 30000⟩]).map
        (fun g => g.gdp_rank) = [1, 1, 3] := by
  have hself : ∀ (xs : List ℚ) (f : ℚ → Nat), xs.zip (xs.map f) = xs.map (fun x => (x, f x)) := by
    intro xs f
    induction xs with
    | nil => rfl
    | cons x xs ih => simp [ih]
  have hzip : ∀ (xs : List ℚ) (p : ℚ × Nat), p ∈ xs.zip (rankMinDesc xs) →
      p.1 ∈ xs ∧ p.2 = 1 + xs.countP (fun y => decide (p.1 < y)) := by
    intro xs p hp
    rw [rankMinDesc, hself] at hp
    rcases List.mem_map.mp hp with ⟨x, hx, hxe⟩
    refine ⟨hxe ▸ hx, ?_⟩
    rw [← hxe]
    simp [filter_lt_length_eq_countP]
  refine ⟨?_, ?_, ?_, by decide, by norm_num [load_gdp, rankMinDesc]⟩
  · intro xs p hp hmax
    rcases hzip xs p hp with ⟨hpx, hpr⟩
    have : xs.countP (fun y => decide (p.1 < y)) = 0 := by
      rw [List.countP_eq_zero]
      intro y hy
      simpa using not_lt.mpr (hmax y hy)
    omega
  · intro xs p q hp hq he
    rcases hzip xs p hp with ⟨_, hpr⟩
    rcases hzip xs q hq with ⟨_, hqr⟩
    rw [hpr, hqr, he]
  · intro xs p q hp hq hlt hgap
    rcases hzip xs p hp with ⟨_, hpr⟩
    rcases hzip xs q hq with ⟨_, hqr⟩
    rw [hpr, hqr, countP_gt_split xs p.1 q.1 hlt hgap]
    omega

/-- C1 instantiated: in the scores [50, 50, 30] the maximal entry 50 is
ranked 1, the two tied entries share that rank, and the rank of the next
distinct score 30 jumps to 3 = 1 + (size 2 of the tie group). -/
theorem c1_rank_annotation_witness :
    ((50, 1) ∈ ([50, 50, 30] : List ℚ).zip (rankMinDesc [50, 50, 30]) ∧
       ∀ y ∈ ([50, 50, 30] : List ℚ), y ≤ (50:ℚ)) ∧
    ((30:ℚ), 3).2 = ((50:ℚ), 1).2 + ([50, 50, 30] : List ℚ).countP (fun y => decide (y = 50)) := by
  refine ⟨⟨by decide, by decide⟩, ?_⟩
  exact c1_rank_annotation_competition_ranking.2.2.1 [50, 50, 30] (50, 1) (30, 3)
    (by decide) (by decide) (by decide) (by decide)

/-- C8 fails as stated: with `top_n = -1 ≤ 0` and a two-edge network
whose labels and coordinates are all present, `get_top_edges` returns a
non-empty result, because the Python slice `edges_sorted[:-1]` keeps all
but the lightest edge rather than selecting nothing. -/
theorem c8_negative_topn_counterexample :
    (-1 : Int) ≤ 0 ∧
    get_top_edges [⟨1, 2, 10⟩, ⟨2, 1, 4⟩]
        [⟨"A", "Alpha", 1, 2⟩, ⟨"B", "Beta", 3, 4⟩]
        [(1, "A"), (2, "B")] (-1)
      = [⟨"A", "B", 10, 1, 2, 3, 4⟩] := by
  exact ⟨by decide, by decide⟩

/-- C8 amended: Top-N selection returns an empty result (not an error)
when N = 0 or when the edge set is empty (for any N); for strictly
negative N the Python slice instead drops the |N| lightest edges, which
can leave a non-empty result (see the counterexample). -/
theorem c8_topn_empty_amended (network : List Edge) (coords : List CoordRow)
    (centralities : List (Nat × String)) (top_n : Int)
    (h : top_n = 0 ∨ network = []) :
    get_top_edges network coords centralities top_n = [] := by
  rcases h with h | h
  · subst h
    simp [get_top_edges, pySlice]
  · subst h
    simp [get_top_edges, sortWeightDesc, pySlice]

/-- C8 amended, instantiated at N = 0 on a one-edge network and at
N = 50 on an empty network. -/
theorem c8_topn_empty_witness :
    get_top_edges [⟨1, 2, 10⟩] [⟨"A", "Alpha", 1, 2⟩] [(1, "A")] 0 = [] ∧
    get_top_edges [] [⟨"A", "Alpha", 1, 2⟩] [(1, "A")] 50 = [] := by
  exact ⟨c8_topn_empty_amended _ _ _ _ (Or.inl rfl),
         c8_topn_empty_amended _ _ _ _ (Or.inr rfl)⟩

/-- C10: `get_top_edges` truncates the weight-sorted edge list to the
first N edges before applying the label/coordinate filter: the output
never exceeds N records, and on the scenario network Top-2 yields a
single record although two coordinate-complete edges exist (Top-3 on the
same network returns both); the dropped heavy edge is not replaced by
the next-heaviest eligible edge, whose record appears only in the Top-3
result. -/
theorem c10_truncate_before_filter :
    (∀ (network : List Edge) (coords : List CoordRow)
       (centralities : List (Nat × String)) (n : Nat),
       (get_top_edges network coords centralities (n : Int)).length ≤ n)
    ∧ (get_top_edges c10Net c10Coords c10Cents 2).length = 1
    ∧ (get_top_edges c10Net c10Coords c10Cents 3).length = 2
    ∧ (⟨"C", "A", 40, 5, 6, 1, 2⟩ : EdgeRecord) ∈ get_top_edges c10Net c10Coords c10Cents 3
    ∧ (⟨"C", "A", 40, 5, 6, 1, 2⟩ : EdgeRecord) ∉ get_top_edges c10Net c10Coords c10Cents 2 := by
  refine ⟨?_, by decide, by decide, by decide, by decide⟩
  intro network coords centralities n
  unfold get_top_edges
  calc (List.filterMap _ (pySlice (n : Int) (sortWeightDesc network))).length
      ≤ (pySlice (n : Int) (sortWeightDesc network)).length :=
        List.length_filterMap_le _ _
    _ ≤ n := by
        simp only [pySlice, le_refl, Int.toNat_ofNat, if_pos (by omega : (0:Int) ≤ n)]
        exact List.length_take_le n _

/-- C7 fails as stated: requesting the code "ZZ", which matches zero
records of a non-empty commodity table, returns an ordinary empty view
and not an `EmptySegmentError` — the source has no raise statement on
any path of `get_centralities_for_commodity`. -/
theorem c7_empty_segment_counterexample :
    get_centralities_for_commodity [] c7ComTable "ZZ" = .ok (.segment []) ∧
    get_centralities_for_commodity [] c7ComTable "ZZ" ≠
      .error SegmentErr.emptySegment := by
  exact ⟨by decide, by decide⟩

/-- C7 amended: a commodity code other than "all" that matches zero
records yields an empty result (no error is ever raised), and the code
"all" always returns the base domestic view, likewise without error. -/
theorem c7_empty_segment_amended (base : List PrepRow)
    (com : List ComPrepRow) (code : String) :
    (code ≠ "all" → (∀ r ∈ com, r.commodity_code ≠ code) →
       get_centralities_for_commodity base com code = .ok (.segment []))
    ∧ get_centralities_for_commodity base com "all" = .ok (.base base) := by
  constructor
  · intro hne hnone
    have : com.filter (fun r => decide (r.commodity_code = code)) = [] :=
      List.filter_eq_nil_iff.mpr (fun r hr => by simpa using hnone r hr)
    simp [get_centralities_for_commodity, hne, this]
  · simp [get_centralities_for_commodity]

/-- C7 amended, instantiated: code "ZZ" on the one-segment table gives
the empty view, code "all" gives the base view. -/
theorem c7_empty_segment_witness :
    get_centralities_for_commodity [] c7ComTable "ZZ" = .ok (.segment []) ∧
    get_centralities_for_commodity [] c7ComTable "all" = .ok (.base []) := by
  exact ⟨(c7_empty_segment_amended [] c7ComTable "ZZ").1 (by decide) (by decide),
         (c7_empty_segment_amended [] c7ComTable "ZZ").2⟩

/-- C9 fails as stated: ranking a table that lacks a requested measure
column aborts with the pandas missing-column `KeyError`, not with a
`ValidationError` — no such class exists anywhere in the source. -/
theorem c9_missing_measure_counterexample :
    annotateRanks c9Table = .error (.keyError "betweenness") ∧
    ∀ c : String, annotateRanks c9Table ≠ .error (.validationError c) := by
  have h : annotateRanks c9Table = .error (.keyError "betweenness") := by decide
  refine ⟨h, fun c hc => ?_⟩
  rw [h] at hc
  simp at hc

/-- C9 amended: whenever one of the ranked measure columns is absent
from the table, rank annotation fails with the `KeyError` of the first
absent measure (in statement order), never with a `ValidationError`. -/
theorem c9_missing_measure_amended (tbl : ColTable)
    (h : ∃ m ∈ rankedMeasures, tbl.find? (fun p => decide (p.1 = m)) = none) :
    ∃ m ∈ rankedMeasures, tbl.find? (fun p => decide (p.1 = m)) = none ∧
      annotateRanks tbl = .error (.keyError m) := by
  rcases hb : tbl.find? (fun p => decide (p.1 = "betweenness")) with _ | pb
  · exact ⟨"betweenness", by simp [rankedMeasures], hb,
      by simp [annotateRanks, rankedMeasures, addRankColumns, getColumn, hb]⟩
  · rcases he : tbl.find? (fun p => decide (p.1 = "eigenvector")) with _ | pe
    · exact ⟨"eigenvector", by simp [rankedMeasures], he,
        by simp [annotateRanks, rankedMeasures, addRankColumns, getColumn, hb, he]⟩
    · rcases ho : tbl.find? (fun p => decide (p.1 = "out_degree")) with _ | po
      · exact ⟨"out_degree", by simp [rankedMeasures], ho,
          by simp [annotateRanks, rankedMeasures, addRankColumns, getColumn, hb, he, ho]⟩
      · exfalso
        rcases h with ⟨m, hm, hnone⟩
        simp [rankedMeasures] at hm
        rcases hm with rfl | rfl | rfl
        · rw [hb] at hnone; cases hnone
        · rw [he] at hnone; cases hnone
        · rw [ho] at hnone; cases hnone

/-- C9 amended, instantiated at the table lacking "betweenness". -/
theorem c9_missing_measure_witness :
    (∃ m ∈ rankedMeasures, c9Table.find? (fun p => decide (p.1 = m)) = none) ∧
    ∃ m ∈ rankedMeasures, c9Table.find? (fun p => decide (p.1 = m)) = none ∧
      annotateRanks c9Table = .error (.keyError m) := by
  exact ⟨by decide, c9_missing_measure_amended c9Table (by decide)⟩

/-- In a table whose state column has no duplicates, `find?` on a
member's state finds exactly that member. -/
theorem find?_state_of_nodup (l : List PrepRow) (x : PrepRow)
    (h : (l.map (fun r => r.state)).Nodup) (hx : x ∈ l) :
    l.find? (fun s => decide (s.state = x.state)) = some x := by
  induction l with
  | nil => cases hx
  | cons a l ih =>
    rw [List.map_cons, List.nodup_cons] at h
    rcases List.mem_cons.mp hx with rfl | hx'
    · simp [List.find?_cons]
    · have ha : ¬ a.state = x.state := fun he =>
        h.1 (he ▸ List.mem_map_of_mem (fun r => r.state) hx')
      rw [List.find?_cons_of_neg _ (by simpa using ha)]
      exact ih h.2 hx'

/-- C2: for every state present in both variants (states unique per
variant, as `set_index('state')` alignment requires), the `rank_changes`
row for that state carries, per measure, the delta
`rank_domestic - rank_extended`; the delta is positive exactly when the
extended rank is the smaller (better) number, negative exactly when it
is larger, zero exactly when equal; and on the scenario tables the
domestic rank 31 against extended rank 18 gives delta +13. -/
theorem c2_boundary_delta :
    (∀ (c51 c52 : List PrepRow) (r1 r2 : PrepRow),
       (c52.map (fun r => r.state)).Nodup → r1 ∈ c51 → r2 ∈ c52 →
       r2.state = r1.state →
       ∃ row ∈ rank_changes c51 c52, row.state = r1.state ∧
         row.betweenness_change = some (r1.rank_betweenness - r2.rank_betweenness) ∧
         row.eigenvector_change = some (r1.rank_eigenvector - r2.rank_eigenvector) ∧
         row.out_degree_change = some (r1.rank_out_degree - r2.rank_out_degree) ∧
         (0 < r1.rank_eigenvector - r2.rank_eigenvector ↔
           r2.rank_eigenvector < r1.rank_eigenvector) ∧
         (r1.rank_eigenvector - r2.rank_eigenvector < 0 ↔
           r1.rank_eigenvector < r2.rank_eigenvector) ∧
         (r1.rank_eigenvector - r2.rank_eigenvector = 0 ↔
           r1.rank_eigenvector = r2.rank_eigenvector))
    ∧ (rank_changes c2Dom c2Ext).map (fun r => r.eigenvector_change) = [some 13] := by
  constructor
  · intro c51 c52 r1 r2 h52 hr1 hr2 hst
    have hmem : r2 ∈ c52_states_only c51 c52 := by
      refine List.mem_filter.mpr ⟨hr2, ?_⟩
      simp only [states_51, hst, decide_eq_true_eq]
      exact List.mem_map_of_mem (fun r => r.state) hr1
    have hnd : ((c52_states_only c51 c52).map (fun r => r.state)).Nodup :=
      h52.sublist ((List.filter_sublist c52).map (fun r => r.state))
    have hfind : (c52_states_only c51 c52).find?
        (fun s => decide (s.state = r1.state)) = some r2 := by
      rw [← hst]
      exact find?_state_of_nodup _ r2 hnd hmem
    refine ⟨_, List.mem_map_of_mem _ hr1, rfl, ?_, ?_, ?_, sub_pos, sub_neg, sub_eq_zero⟩
    · simp [alignedDelta, hfind]
    · simp [alignedDelta, hfind]
    · simp [alignedDelta, hfind]
  · simp [rank_changes, c52_states_only, states_51, alignedDelta, c2Dom, c2Ext]
    norm_num

/-- C2 instantiated at the scenario tables: the "IA" row of
`rank_changes` has eigenvector delta `31 - 18`. -/
theorem c2_boundary_delta_witness :
    ∃ row ∈ rank_changes c2Dom c2Ext,
      row.state = "IA" ∧
      row.betweenness_change = some (10 - 12) ∧
      row.eigenvector_change = some (31 - 18) ∧
      row.out_degree_change = some (5 - 5) ∧
      ((0:ℚ) < 31 - 18 ↔ (18:ℚ) < 31) ∧
      ((31:ℚ) - 18 < 0 ↔ (31:ℚ) < 18) ∧
      ((31:ℚ) - 18 = 0 ↔ (31:ℚ) = 18) := by
  exact c2_boundary_delta.1 c2Dom c2Ext
    ⟨19, "IA", 1, 2, 3, 10, 31, 5, some 200, some 30, some "Iowa"⟩
    ⟨19, "IA", 1, 2, 3, 12, 18, 5, some 200, some 30, some "Iowa"⟩
    (by decide) (by decide) (by decide) (by decide)

/-- C3 fails as stated: on input variants where the domestic code "XX"
has no counterpart in the extended variant, "XX" still appears among the
keys of `rank_changes` (with undefined deltas), so the key set is the
domestic code set, not the intersection of the two variants' code
sets. -/
theorem c3_key_set_counterexample :
    "XX" ∈ (rank_changes c3Dom c3Ext).map (fun r => r.state) ∧
    "XX" ∈ c3Dom.map (fun r => r.state) ∧
    "XX" ∉ c3Ext.map (fun r => r.state) := by
  exact ⟨by decide, by decide, by decide⟩

/-- C3 amended: the key set of `rank_changes` is exactly the domestic
variant's code set; whenever every domestic code also occurs in the
extended variant (as with the real 51x51 / 52x52 tables, where the
extended variant is the domestic states plus the aggregate node), that
set equals the intersection of the two variants' code sets; and a code
outside the domestic variant — in particular the aggregate,
extended-only node — never appears among the keys. -/
theorem c3_key_set_amended (c51 c52 : List PrepRow) :
    (rank_changes c51 c52).map (fun r => r.state) = states_51 c51
    ∧ ((∀ s ∈ states_51 c51, s ∈ c52.map (fun r => r.state)) →
       ∀ s, (s ∈ (rank_changes c51 c52).map (fun r => r.state) ↔
         s ∈ states_51 c51 ∧ s ∈ c52.map (fun r => r.state)))
    ∧ (∀ s, s ∉ states_51 c51 →
        s ∉ (rank_changes c51 c52).map (fun r => r.state)) := by
  have hkeys : (rank_changes c51 c52).map (fun r => r.state) = states_51 c51 := by
    simp [rank_changes, states_51, List.map_map]
  refine ⟨hkeys, ?_, ?_⟩
  · intro hsub s
    rw [hkeys]
    exact ⟨fun h => ⟨h, hsub s h⟩, fun h => h.1⟩
  · intro s hs
    rw [hkeys]
    exact hs

/-- C3 amended, instantiated at tables where the domestic codes are a
subset of the extended codes: the keys are the domestic codes, "IA" is a
key exactly because it is in both variants, and "ROW" (extended-only) is
not a key. -/
theorem c3_key_set_witness :
    (rank_changes c2Dom c2Ext).map (fun r => r.state) = states_51 c2Dom ∧
    ("IA" ∈ (rank_changes c2Dom c2Ext).map (fun r => r.state) ↔
      "IA" ∈ states_51 c2Dom ∧ "IA" ∈ c2Ext.map (fun r => r.state)) ∧
    "ROW" ∉ (rank_changes c2Dom c2Ext).map (fun r => r.state) := by
  exact ⟨(c3_key_set_amended c2Dom c2Ext).1,
         (c3_key_set_amended c2Dom c2Ext).2.1 (by decide) "IA",
         (c3_key_set_amended c2Dom c2Ext).2.2 "ROW" (by decide)⟩

/-- With duplicate-free reference keys, the rows matching a key are
either none or exactly the one `find?` returns. -/
theorem filter_key_of_nodup {β : Type} (ref : List β) (rkey : β → String)
    (h : (ref.map rkey).Nodup) (k : String) :
    ref.filter (fun g => decide (rkey g = k)) = [] ∨
    ∃ g, ref.filter (fun g => decide (rkey g = k)) = [g] ∧
      ref.find? (fun g => decide (rkey g = k)) = some g := by
  induction ref with
  | nil => exact Or.inl rfl
  | cons b bs ih =>
    rw [List.map_cons, List.nodup_cons] at h
    by_cases hb : rkey b = k
    · right
      refine ⟨b, ?_, List.find?_cons_of_pos _ (by simpa using hb)⟩
      rw [List.filter_cons_of_pos (by simpa using hb)]
      have hnil : bs.filter (fun g => decide (rkey g = k)) = [] := by
        rw [List.filter_eq_nil_iff]
        intro g hg
        simp only [decide_eq_true_eq]
        intro hgk
        have hmem : rkey g ∈ bs.map rkey := List.mem_map_of_mem rkey hg
        rw [hgk, ← hb] at hmem
        exact h.1 hmem
      rw [hnil]
    · rw [List.filter_cons_of_neg (by simpa using hb),
          List.find?_cons_of_neg _ (by simpa using hb)]
      exact ih h.2

/-- With duplicate-free reference keys, a pandas left merge is exactly a
row-wise map: each left row is combined with the unique match found by
`find?`, or with nothing. -/
theorem leftMerge_eq_map_of_nodup {α β γ : Type} (df : List α) (ref : List β)
    (key : α → String) (rkey : β → String) (combine : α → Option β → γ)
    (h : (ref.map rkey).Nodup) :
    leftMerge df ref key rkey combine =
      df.map (fun r => combine r (ref.find? (fun g => decide (rkey g = key r)))) := by
  induction df with
  | nil => rfl
  | cons r rs ih =>
    simp only [leftMerge, List.flatMap_cons] at ih ⊢
    rcases filter_key_of_nodup ref rkey h (key r) with hnil | ⟨g, hg, hfind⟩
    · have hfindn : ref.find? (fun g => decide (rkey g = key r)) = none := by
        rw [List.find?_eq_none]
        intro g hg
        simpa using List.filter_eq_nil_iff.mp hnil g hg
      rw [hnil, List.map_cons, hfindn]
      exact congrArg _ ih
    · rw [hg, List.map_cons, hfind]
      exact congrArg _ ih

/-- C4: with duplicate-free GDP and coordinate reference keys (they are
keyed tables: one row per state code), the Variant Joiner
`_prepare_centralities` keeps exactly one output row per centrality row
— the row count is preserved — and a centrality row whose code matches
no GDP entry or no coordinate entry surfaces with `none` in the
respective optional columns instead of being dropped. -/
theorem c4_variant_joiner_preserves_rows (df : List CentRow) (gdp : List GdpOut)
    (coords : List CoordRow)
    (hg : (gdp.map (fun g => g.state_abbrev)).Nodup)
    (hc : (coords.map (fun c => c.state_abbr)).Nodup) :
    (_prepare_centralities df gdp coords).length = df.length
    ∧ (∀ r ∈ df, ∃ r' ∈ _prepare_centralities df gdp coords, r'.state = r.state
        ∧ ((∀ g ∈ gdp, g.state_abbrev ≠ r.state) →
            r'.gdp_billions = none ∧ r'.gdp_rank = none)
        ∧ ((∀ c ∈ coords, c.state_abbr ≠ r.state) → r'.state_name = none)) := by
  have h1 : _prepare_centralities df gdp coords =
      df.map (fun r =>
        ⟨r.state_id, r.state, r.betweenness, r.eigenvector, r.out_degree,
         r.rank_betweenness, r.rank_eigenvector, r.rank_out_degree,
         (gdp.find? (fun g => decide (g.state_abbrev = r.state))).map (fun x => x.gdp_billions),
         (gdp.find? (fun g => decide (g.state_abbrev = r.state))).map (fun x => x.gdp_rank),
         (coords.find? (fun c => decide (c.state_abbr = r.state))).map (fun x => x.state_name)⟩) := by
    unfold _prepare_centralities
    rw [leftMerge_eq_map_of_nodup _ _ _ _ _ hg, leftMerge_eq_map_of_nodup _ _ _ _ _ hc,
        List.map_map]
    rfl
  refine ⟨by rw [h1, List.length_map], ?_⟩
  intro r hr
  refine ⟨_, by rw [h1]; exact List.mem_map_of_mem _ hr, rfl, ?_, ?_⟩
  · intro hnog
    have hn : gdp.find? (fun g => decide (g.state_abbrev = r.state)) = none :=
      List.find?_eq_none.mpr (fun g hg => by simpa using hnog g hg)
    simp [hn]
  · intro hnoc
    have hn : coords.find? (fun c => decide (c.state_abbr = r.state)) = none :=
      List.find?_eq_none.mpr (fun c hc => by simpa using hnoc c hc)
    simp [hn]

/-- C4 instantiated: the aggregate node's row survives the join with all
optional columns undefined, and the row count is preserved. -/
theorem c4_variant_joiner_witness :
    (_prepare_centralities c4Df c4Gdp c4Coords).length = c4Df.length ∧
    ∃ r' ∈ _prepare_centralities c4Df c4Gdp c4Coords, r'.state = "ROW"
      ∧ r'.gdp_billions = none ∧ r'.gdp_rank = none ∧ r'.state_name = none := by
  obtain ⟨hlen, hrows⟩ :=
    c4_variant_joiner_preserves_rows c4Df c4Gdp c4Coords (by decide) (by decide)
  obtain ⟨r', hmem, hst, hgdp, hname⟩ := hrows ⟨52, "ROW", 1, 2, 3, 4, 5, 6⟩ (by decide)
  obtain ⟨hb, hk⟩ := hgdp (by decide)
  exact ⟨hlen, r', hmem, hst, hb, hk, hname (by decide)⟩

/-- Membership in `firstUnique` is membership in the original list. -/
theorem firstUnique_mem [DecidableEq α] : ∀ (l : List α) (a : α),
    a ∈ firstUnique l ↔ a ∈ l
  | [], a => by simp [firstUnique]
  | x :: xs, a => by
    rw [firstUnique]
    rcases eq_or_ne a x with rfl | hax
    · simp
    · rw [List.mem_cons, List.mem_cons,
          firstUnique_mem (xs.filter (fun y => decide (y ≠ x))) a]
      simp [hax, List.mem_filter]
termination_by l _ => l.length
decreasing_by
  simp only [List.length_cons]
  exact Nat.lt_succ_of_le (List.length_filter_le _ _)

/-- `firstUnique` has no duplicates. -/
theorem firstUnique_nodup [DecidableEq α] : ∀ (l : List α), (firstUnique l).Nodup
  | [] => by simp [firstUnique]
  | x :: xs => by
    rw [firstUnique, List.nodup_cons]
    refine ⟨?_, firstUnique_nodup _⟩
    rw [firstUnique_mem]
    simp [List.mem_filter]
termination_by l => l.length
decreasing_by
  simp only [List.length_cons]
  exact Nat.lt_succ_of_le (List.length_filter_le _ _)

/-- Every output row of a left merge is some left row combined with an
optional match. -/
theorem mem_leftMerge {α β γ : Type} {df : List α} {ref : List β}
    {key : α → String} {rkey : β → String} {combine : α → Option β → γ} {c : γ}
    (h : c ∈ leftMerge df ref key rkey combine) :
    ∃ r ∈ df, ∃ o, c = combine r o := by
  unfold leftMerge at h
  rcases List.mem_flatMap.mp h with ⟨r, hr, hc⟩
  refine ⟨r, hr, ?_⟩
  rcases hfil : ref.filter (fun g => decide (rkey g = key r)) with _ | ⟨g, gs⟩
  · rw [hfil] at hc
    simp only [List.mem_singleton] at hc
    exact ⟨none, hc⟩
  · rw [hfil] at hc
    rcases List.mem_map.mp hc with ⟨g', _, rfl⟩
    exact ⟨some g', rfl⟩

/-- Every output row of `processSegment` descends from an input row with
the same commodity code and state. -/
theorem processSegment_mem {rows : List ComRow} {gdp : List GdpOut}
    {coords : List CoordRow} {r' : ComPrepRow}
    (h : r' ∈ processSegment rows gdp coords) :
    ∃ r ∈ rows, r'.commodity_code = r.commodity_code ∧ r'.state = r.state := by
  unfold processSegment at h
  rcases mem_leftMerge h with ⟨s1, hs1, o, rfl⟩
  rcases mem_leftMerge hs1 with ⟨p, hp, o2, rfl⟩
  rcases List.mem_map.mp hp with ⟨r, hr, rfl⟩
  exact ⟨r, hr, rfl, rfl⟩

/-- Filtering distributes over flatMap. -/
theorem filter_flatMap_comm {α β : Type} (l : List α) (f : α → List β) (p : β → Bool) :
    (l.flatMap f).filter p = l.flatMap (fun a => (f a).filter p) := by
  induction l with
  | nil => rfl
  | cons a l ih => simp [List.flatMap_cons, List.filter_append, ih]

/-- A flatMap of everywhere-empty blocks is empty. -/
theorem flatMap_eq_nil_of {α β : Type} (l : List α) (f : α → List β)
    (h : ∀ a ∈ l, f a = []) : l.flatMap f = [] := by
  induction l with
  | nil => rfl
  | cons a l ih =>
    rw [List.flatMap_cons, h a (List.mem_cons_self a l), List.nil_append]
    exact ih (fun b hb => h b (List.mem_cons_of_mem a hb))

/-- Over a duplicate-free code list, only the block of code `X`
contributes rows with commodity code `X`. -/
theorem flatMap_segment_filter (codes : List String) (df : List ComRow)
    (gdp : List GdpOut) (coords : List CoordRow) (X : String)
    (hnd : codes.Nodup) :
    codes.flatMap (fun code =>
      (processSegment (df.filter (fun r => decide (r.commodity_code = code)))
          gdp coords).filter (fun r => decide (r.commodity_code = X)))
    = if X ∈ codes then
        processSegment (df.filter (fun r => decide (r.commodity_code = X))) gdp coords
      else [] := by
  induction codes with
  | nil => simp
  | cons c cs ih =>
    rw [List.nodup_cons] at hnd
    rw [List.flatMap_cons]
    by_cases hcX : c = X
    · subst hcX
      have hall : (processSegment (df.filter (fun r => decide (r.commodity_code = c)))
          gdp coords).filter (fun r => decide (r.commodity_code = c)) =
          processSegment (df.filter (fun r => decide (r.commodity_code = c))) gdp coords := by
        rw [List.filter_eq_self]
        intro r' hr'
        rcases processSegment_mem hr' with ⟨r, hr, hcode, _⟩
        have hc := (List.mem_filter.mp hr).2
        simp only [decide_eq_true_eq] at hc ⊢
        rw [hcode, hc]
      have hrest : cs.flatMap (fun code =>
          (processSegment (df.filter (fun r => decide (r.commodity_code = code)))
              gdp coords).filter (fun r => decide (r.commodity_code = c))) = [] := by
        refine flatMap_eq_nil_of _ _ (fun code hcode => ?_)
        rw [List.filter_eq_nil_iff]
        intro r' hr'
        rcases processSegment_mem hr' with ⟨r, hr, hrc, _⟩
        have hc := (List.mem_filter.mp hr).2
        simp only [decide_eq_true_eq] at hc ⊢
        rw [hrc, hc]
        intro heq
        exact hnd.1 (heq ▸ hcode)
      rw [hall, hrest, List.append_nil, if_pos (List.mem_cons_self c cs)]
    · have hblock : (processSegment (df.filter (fun r => decide (r.commodity_code = c)))
          gdp coords).filter (fun r => decide (r.commodity_code = X)) = [] := by
        rw [List.filter_eq_nil_iff]
        intro r' hr'
        rcases processSegment_mem hr' with ⟨r, hr, hrc, _⟩
        have hc := (List.mem_filter.mp hr).2
        simp only [decide_eq_true_eq] at hc ⊢
        rw [hrc, hc]
        exact hcX
      rw [hblock, List.nil_append, ih hnd.2]
      by_cases hX : X ∈ cs
      · rw [if_pos hX, if_pos (List.mem_cons_of_mem c hX)]
      · rw [if_neg hX, if_neg (fun h => ?_)]
        rcases List.mem_cons.mp h with rfl | h
        · exact hcX rfl
        · exact hX h

/-- Filtering the prepared commodity table to one code is exactly
processing that code's input rows in isolation (empty when the code
matches nothing). -/
theorem prep_commodity_filter_code (df : List ComRow) (gdp : List GdpOut)
    (coords : List CoordRow) (X : String) :
    (_prepare_commodity_centralities df gdp coords).filter
        (fun r => decide (r.commodity_code = X)) =
      processSegment (df.filter (fun r => decide (r.commodity_code = X))) gdp coords := by
  unfold _prepare_commodity_centralities
  rw [filter_flatMap_comm,
      flatMap_segment_filter _ df gdp coords X (firstUnique_nodup _)]
  by_cases hX : X ∈ firstUnique (df.map (fun r => r.commodity_code))
  · rw [if_pos hX]
  · rw [if_neg hX]
    rw [firstUnique_mem] at hX
    have hnil : df.filter (fun r => decide (r.commodity_code = X)) = [] := by
      rw [List.filter_eq_nil_iff]
      intro r hr
      simp only [decide_eq_true_eq]
      intro he
      exact hX (he ▸ List.mem_map_of_mem (fun r => r.commodity_code) hr)
    rw [hnil]
    rfl

/-- C6: commodity segments are ranked in isolation — two input tables
that agree on segment X's rows produce identical prepared output for
segment X no matter how the other segments differ — and a state absent
from a segment's input rows never appears in that segment's output (no
back-filled default rank). -/
theorem c6_segment_isolation :
    (∀ (df₁ df₂ : List ComRow) (gdp : List GdpOut) (coords : List CoordRow) (X : String),
       df₁.filter (fun r => decide (r.commodity_code = X)) =
         df₂.filter (fun r => decide (r.commodity_code = X)) →
       (_prepare_commodity_centralities df₁ gdp coords).filter
           (fun r => decide (r.commodity_code = X)) =
         (_prepare_commodity_centralities df₂ gdp coords).filter
           (fun r => decide (r.commodity_code = X)))
    ∧ (∀ (df : List ComRow) (gdp : List GdpOut) (coords : List CoordRow) (X s : String),
       s ∉ (df.filter (fun r => decide (r.commodity_code = X))).map (fun r => r.state) →
       s ∉ ((_prepare_commodity_centralities df gdp coords).filter
           (fun r => decide (r.commodity_code = X))).map (fun r => r.state)) := by
  constructor
  · intro df₁ df₂ gdp coords X h
    rw [prep_commodity_filter_code, prep_commodity_filter_code, h]
  · intro df gdp coords X s hs hmem
    rw [prep_commodity_filter_code] at hmem
    rcases List.mem_map.mp hmem with ⟨r', hr', rfl⟩
    rcases processSegment_mem hr' with ⟨r, hr, _, hstate⟩
    refine hs ?_
    rw [hstate]
    exact List.mem_map_of_mem (fun r => r.state) hr

/-- C6 instantiated: replacing segment "02" wholesale leaves segment
"01"'s prepared output unchanged, and "TX" (absent from segment "01")
does not appear in segment "01"'s output. -/
theorem c6_segment_isolation_witness :
    (_prepare_commodity_centralities c6DfA c4Gdp c4Coords).filter
        (fun r => decide (r.commodity_code = "01")) =
      (_prepare_commodity_centralities c6DfB c4Gdp c4Coords).filter
        (fun r => decide (r.commodity_code = "01")) ∧
    "TX" ∉ ((_prepare_commodity_centralities c6DfA c4Gdp c4Coords).filter
        (fun r => decide (r.commodity_code = "01"))).map (fun r => r.state) := by
  exact ⟨c6_segment_isolation.1 c6DfA c6DfB c4Gdp c4Coords "01" (by decide),
         c6_segment_isolation.2 c6DfA c4Gdp c4Coords "01" "TX" (by decide)⟩

/-- Unfolding `pairsFlowTotal` over a cons. -/
theorem pairsFlowTotal_cons (p : (String × String) × PairData)
    (ps : List ((String × String) × PairData)) :
    pairsFlowTotal (p :: ps) = total_weight p.2 + pairsFlowTotal ps := by
  simp [pairsFlowTotal]

/-- Setting a fresh dict key appends the binding. -/
theorem dictSet_fresh {α β : Type} [DecidableEq α] (d : List (α × β)) (k : α) (v : β)
    (h : ∀ p ∈ d, p.1 ≠ k) : dictSet d k v = d ++ [(k, v)] := by
  unfold dictSet
  rw [if_neg]
  intro hany
  rcases List.any_eq_true.mp hany with ⟨p, hp, hpk⟩
  exact h p hp (by simpa using hpk)

/-- A key of `dictSet d k v` is a key of `d` or is `k`. -/
theorem dictSet_keys_mem {α β : Type} [DecidableEq α] (d : List (α × β)) (k : α) (v : β)
    (a : α) (h : a ∈ (dictSet d k v).map Prod.fst) :
    a ∈ d.map Prod.fst ∨ a = k := by
  unfold dictSet at h
  by_cases hany : d.any (fun p => decide (p.1 = k)) = true
  · rw [if_pos hany, List.map_map] at h
    rcases List.mem_map.mp h with ⟨p, hp, hpa⟩
    by_cases hk : p.1 = k
    · right
      rw [← hpa]
      simp [hk]
    · left
      rw [← hpa]
      simp only [Function.comp_apply, if_neg hk]
      exact List.mem_map_of_mem Prod.fst hp
  · rw [if_neg hany, List.map_append] at h
    rcases List.mem_append.mp h with h | h
    · exact Or.inl h
    · right
      simpa using h

/-- The keys of the aggregated pair list after one loop iteration: they
are unchanged (existing-pair branch) or extended by the new, previously
absent pair key (new-pair branch). -/
theorem addEdgeToPairs_keys (acc : List ((String × String) × PairData)) (e : EdgeRecord) :
    (addEdgeToPairs acc e).map Prod.fst = acc.map Prod.fst ∨
    ((addEdgeToPairs acc e).map Prod.fst = acc.map Prod.fst ++ [pairKey e.source e.target] ∧
     pairKey e.source e.target ∉ acc.map Prod.fst) := by
  unfold addEdgeToPairs
  rcases hfind : acc.find? (fun p => decide (p.1 = pairKey e.source e.target)) with _ | pd <;>
    rw [hfind]
  · right
    constructor
    · simp
    · intro hmem
      rcases List.mem_map.mp hmem with ⟨p, hp, hpk⟩
      have hno := List.find?_eq_none.mp hfind p hp
      simp only [decide_eq_true_eq] at hno
      exact hno hpk
  · left
    rw [List.map_map]
    refine List.map_congr_left (fun p _ => ?_)
    by_cases hk : p.1 = pairKey e.source e.target <;> simp [hk]

/-- One loop iteration keeps the pair keys duplicate-free. -/
theorem addEdgeToPairs_keys_nodup {acc : List ((String × String) × PairData)}
    (e : EdgeRecord) (h : (acc.map Prod.fst).Nodup) :
    ((addEdgeToPairs acc e).map Prod.fst).Nodup := by
  rcases addEdgeToPairs_keys acc e with hk | ⟨hk, hnm⟩
  · rw [hk]
    exact h
  · rw [hk]
    simp [List.nodup_append, h, hnm]

/-- C5 part 1, in fold form: starting from duplicate-free keys, the
whole grouping loop keeps one record per unordered pair key. -/
theorem buildEdgePairs_keys_nodup_aux (es : List EdgeRecord) :
    ∀ acc, (acc.map Prod.fst).Nodup →
      ((es.foldl addEdgeToPairs acc).map Prod.fst).Nodup := by
  induction es with
  | nil => exact fun _ h => h
  | cons e es ih => exact fun acc h => ih _ (addEdgeToPairs_keys_nodup e h)

/-- Every direction key present after one loop iteration was already
present or is the processed edge's direction. -/
theorem addEdgeToPairs_dirs_mem (acc : List ((String × String) × PairData))
    (e : EdgeRecord) (d : String) (hd : d ∈ flowDirs (addEdgeToPairs acc e)) :
    d ∈ flowDirs acc ∨ d = directionKey e := by
  unfold addEdgeToPairs at hd
  rcases hfind : acc.find? (fun p => decide (p.1 = pairKey e.source e.target)) with _ | pd <;>
    rw [hfind] at hd <;> unfold flowDirs at hd ⊢
  · rcases List.mem_flatMap.mp hd with ⟨p, hp, hdp⟩
    rcases List.mem_append.mp hp with hp | hp
    · exact Or.inl (List.mem_flatMap.mpr ⟨p, hp, hdp⟩)
    · rw [List.mem_singleton] at hp
      subst hp
      simp only at hdp
      rcases dictSet_keys_mem [] (directionKey e) e.weight d hdp with h | h
      · cases h
      · exact Or.inr h
  · rcases List.mem_flatMap.mp hd with ⟨p, hp, hdp⟩
    rcases List.mem_map.mp hp with ⟨q, hq, rfl⟩
    by_cases hk : q.1 = pairKey e.source e.target
    · simp only [if_pos hk] at hdp
      rcases dictSet_keys_mem q.2.flows (directionKey e) e.weight d hdp with h | h
      · exact Or.inl (List.mem_flatMap.mpr ⟨q, hq, h⟩)
      · exact Or.inr h
    · simp only [if_neg hk] at hdp
      exact Or.inl (List.mem_flatMap.mpr ⟨q, hq, hdp⟩)

/-- Updating the unique record with the given key by storing a fresh
direction adds exactly that direction's weight to the grand total. -/
theorem pairsFlowTotal_update (key : String × String) (dir : String) (w : ℚ) :
    ∀ (acc : List ((String × String) × PairData)),
    (acc.map Prod.fst).Nodup →
    key ∈ acc.map Prod.fst →
    (∀ p ∈ acc, ∀ q ∈ p.2.flows, q.1 ≠ dir) →
    pairsFlowTotal (acc.map (fun p =>
      if p.1 = key then (p.1, (⟨p.2.coords, dictSet p.2.flows dir w⟩ : PairData)) else p)) =
    pairsFlowTotal acc + w := by
  intro acc
  induction acc with
  | nil =>
    intro _ hmem _
    simp at hmem
  | cons p ps ih =>
    intro hnd hmem hfresh
    rw [List.map_cons, List.nodup_cons] at hnd
    rw [List.map_cons, pairsFlowTotal_cons, pairsFlowTotal_cons]
    by_cases hk : p.1 = key
    · rw [if_pos hk]
      have hfr : ∀ q ∈ p.2.flows, q.1 ≠ dir := hfresh p (List.mem_cons_self p ps)
      have hset : dictSet p.2.flows dir w = p.2.flows ++ [(dir, w)] :=
        dictSet_fresh _ _ _ hfr
      have htail : ps.map (fun p =>
          if p.1 = key then (p.1, (⟨p.2.coords, dictSet p.2.flows dir w⟩ : PairData)) else p)
          = ps := by
        have hq : ∀ q ∈ ps, (if q.1 = key then
            (q.1, (⟨q.2.coords, dictSet q.2.flows dir w⟩ : PairData)) else q) = q := by
          intro q hq
          rw [if_neg]
          intro hqk
          refine hnd.1 ?_
          rw [hk, ← hqk]
          exact List.mem_map_of_mem Prod.fst hq
        exact (List.map_congr_left hq).trans (List.map_id ps)
      rw [htail]
      have htw : total_weight (⟨p.2.coords, dictSet p.2.flows dir w⟩ : PairData)
          = total_weight p.2 + w := by
        rw [total_weight, hset]
        simp [total_weight]
      rw [htw]
      ring
    · rw [if_neg hk]
      have hmem2 : key ∈ ps.map Prod.fst := by
        rw [List.map_cons] at hmem
        rcases List.mem_cons.mp hmem with h | h
        · exact absurd h.symm hk
        · exact h
      rw [ih hnd.2 hmem2 (fun q hq => hfresh q (List.mem_cons_of_mem p hq))]
      ring

/-- One loop iteration with a globally fresh direction key adds exactly
the processed edge's weight to the grand total. -/
theorem addEdgeToPairs_total (acc : List ((String × String) × PairData)) (e : EdgeRecord)
    (hnd : (acc.map Prod.fst).Nodup)
    (hfresh : ∀ p ∈ acc, ∀ q ∈ p.2.flows, q.1 ≠ directionKey e) :
    pairsFlowTotal (addEdgeToPairs acc e) = pairsFlowTotal acc + e.weight := by
  unfold addEdgeToPairs
  rcases hfind : acc.find? (fun p => decide (p.1 = pairKey e.source e.target)) with _ | pd <;>
    rw [hfind]
  · simp [pairsFlowTotal, total_weight, dictSet]
  · have hpd : pd ∈ acc := List.mem_of_find?_eq_some hfind
    have hpk : pd.1 = pairKey e.source e.target := by
      have := List.find?_some hfind
      simpa using this
    exact pairsFlowTotal_update _ _ _ acc hnd
      (hpk ▸ List.mem_map_of_mem Prod.fst hpd) hfresh

/-- The grouping loop, started from an accumulator whose stored
directions are disjoint from the incoming (duplicate-free) edge
directions, adds exactly the incoming edges' total weight. -/
theorem foldl_flow_total (es : List EdgeRecord) :
    ∀ (acc : List ((String × String) × PairData)),
    (acc.map Prod.fst).Nodup →
    (∀ d ∈ flowDirs acc, d ∉ es.map directionKey) →
    (es.map directionKey).Nodup →
    pairsFlowTotal (es.foldl addEdgeToPairs acc) =
      pairsFlowTotal acc + (es.map (fun e => e.weight)).sum := by
  induction es with
  | nil =>
    intro acc _ _ _
    simp
  | cons e es ih =>
    intro acc hnd hdis hdup
    rw [List.map_cons, List.nodup_cons] at hdup
    rw [List.foldl_cons]
    have hfresh : ∀ p ∈ acc, ∀ q ∈ p.2.flows, q.1 ≠ directionKey e := by
      intro p hp q hq hqd
      refine hdis q.1 ?_ ?_
      · exact List.mem_flatMap.mpr ⟨p, hp, List.mem_map_of_mem Prod.fst hq⟩
      · rw [hqd]
        simp
    have hstep := addEdgeToPairs_total acc e hnd hfresh
    have hnd2 := addEdgeToPairs_keys_nodup e hnd
    have hdis2 : ∀ d ∈ flowDirs (addEdgeToPairs acc e), d ∉ es.map directionKey := by
      intro d hd
      rcases addEdgeToPairs_dirs_mem acc e d hd with h | rfl
      · intro hmem
        exact hdis d h (List.mem_cons_of_mem _ hmem)
      · exact hdup.1
    rw [ih _ hnd2 hdis2 hdup.2, hstep, List.map_cons, List.sum_cons]
    ring

/-- C5: the grouping loop of `create_network_map` produces at most one
record per unordered endpoint pair (the pair keys are duplicate-free for
every input), the grand total of the per-direction flows equals the sum
of the selected directed edges' weights whenever the selected edges have
pairwise distinct direction keys (every selection from a directed graph
does), and the scenario selection aggregates into pair (A,B) with
breakdown (A→B: 10, B→A: 4) and total 14 plus pair (C,D) with
breakdown (C→D: 100) and total 100. -/
theorem c5_edge_aggregation :
    (∀ edge_data : List EdgeRecord,
       ((buildEdgePairs edge_data).map Prod.fst).Nodup)
    ∧ (∀ edge_data : List EdgeRecord,
       (edge_data.map directionKey).Nodup →
       pairsFlowTotal (buildEdgePairs edge_data) =
         (edge_data.map (fun e => e.weight)).sum)
    ∧ buildEdgePairs c5Sel =
        [(("A", "B"), ⟨(1, 2, 3, 4), [("A→B", 10), ("B→A", 4)]⟩),
         (("C", "D"), ⟨(5, 6, 7, 8), [("C→D", 100)]⟩)]
    ∧ total_weight ⟨(1, 2, 3, 4), [("A→B", 10), ("B→A", 4)]⟩ = 14
    ∧ total_weight ⟨(5, 6, 7, 8), [("C→D", 100)]⟩ = 100 := by
  refine ⟨fun ed => buildEdgePairs_keys_nodup_aux ed [] (by simp), fun ed hnd => ?_,
    by decide, by norm_num [total_weight], by norm_num [total_weight]⟩
  have h := foldl_flow_total ed [] (by simp) (by simp [flowDirs]) hnd
  rw [buildEdgePairs, h]
  simp [pairsFlowTotal]

/-- C5 instantiated at the scenario selection: its direction keys are
distinct and the aggregated grand total equals the selected weight
sum. -/
theorem c5_edge_aggregation_witness :
    (c5Sel.map directionKey).Nodup ∧
    pairsFlowTotal (buildEdgePairs c5Sel) = (c5Sel.map (fun e => e.weight)).sum := by
  exact ⟨by decide, c5_edge_aggregation.2.1 c5Sel (by decide)⟩

